import Mathlib

/-!
# Verification of the email-alert booking pipeline

Shallow embedding of the booking-alert system
(`src/app/api/check-emails/route.ts`, `src/app/utils/db.ts`,
`src/app/utils/push.ts`) and proofs about its reconciliation,
slot-merging, classification, persistence and notification behaviour.
-/

/-- The persisted booking record, as assembled by the sync route
(`route.ts` lines 293–303).  The route's record literal carries the
fields below; `customerName` and `paidAmount` are optional because the
route never sets them (they are absent/undefined on its records). -/
structure Booking where
  id : String
  platform : String
  location : String
  bookingSlot : String
  gameDate : String
  gameTime : String
  sport : String
  message : String
  timestamp : Nat
  customerName : Option String := none
  paidAmount : Option String := none
deriving DecidableEq, Repr

/-- A push subscriber as stored by `subscriptions.ts`
(`{location, subscription}` pair; the handle is abstracted to a string). -/
structure Subscriber where
  location : String
  handle : String
deriving DecidableEq, Repr

/-! ## String helpers (JS `String.prototype.includes`) -/

/-- `hasPre n h` : the char list `n` is a leading segment of `h`. -/
def hasPre : List Char → List Char → Bool
  | [], _ => true
  | _ :: _, [] => false
  | c :: cs, d :: ds => c = d && hasPre cs ds

/-- `occursIn n h` : the char list `n` occurs contiguously inside `h`. -/
def occursIn (n : List Char) : List Char → Bool
  | [] => n.isEmpty
  | d :: ds => hasPre n (d :: ds) || occursIn n ds

/-- JS `hay.includes(needle)`. -/
def strContains (hay needle : String) : Bool :=
  occursIn needle.toList hay.toList

/-- JS `s.toLowerCase()` on the ASCII texts this pipeline handles. -/
def strLower (s : String) : String :=
  ⟨s.toList.map Char.toLower⟩

/-! ## Platform classifier (`route.ts` lines 160–180)

The loop first rejects a message whose lowercased `subject + " " + from`
text contains a review/feedback keyword (`continue`), and only then
tests the platform keyword chain. -/

def reviewKeywords : List String :=
  ["review", "rate your", "feedback", "how was", "share your experience"]

/-- The platform if/else chain of `route.ts` lines 166–173, applied to
the already-lowercased header text. -/
def platformOf (headerText : String) : Option String :=
  if strContains headerText "playo" then some "Playo"
  else if strContains headerText "hudle" then some "Hudle"
  else if strContains headerText "district" then some "District"
  else if strContains headerText "khelomore" || strContains headerText "khelo more" then
    some "Khelomore"
  else if strContains headerText "google" || strContains headerText "security" ||
      strContains headerText "verification" || strContains headerText "sign-in" ||
      strContains headerText "code" then
    some "System"
  else none

/-- Classification of one message from its subject and sender headers:
review filter first (`continue`), then the platform chain.  Returns the
platform assigned to the candidate, or `none` when the message is
dropped from the pipeline. -/
def classify (subject from_ : String) : Option String :=
  let headerText := strLower (subject ++ " " ++ from_)
  if reviewKeywords.any (fun kw => strContains headerText kw) then none
  else platformOf headerText

/-! ## Reconciliation merge (`route.ts` lines 308–313)

`const combined = [...existingHistory, ...alerts];`
`const unique = Array.from(new Map(combined.map(item => [item.id, item])).values());`

A JS `Map` keyed by `item.id` keeps, for every id, the position of the
first insertion and the value of the last insertion; `values()` returns
the values in key-insertion order.  `upsertById` is one `map.set` step
and `mergeById` folds it over the combined list. -/

/-- One `map.set(b.id, b)` step on the value list of an id-keyed JS map:
if the id is present its value is replaced in place, otherwise the
record is appended. -/
def upsertById (m : List Booking) (b : Booking) : List Booking :=
  if m.any (fun x => x.id = b.id) then
    m.map (fun x => if x.id = b.id then b else x)
  else m ++ [b]

/-- `Array.from(new Map(l.map(item => [item.id, item])).values())`. -/
def mergeById (l : List Booking) : List Booking :=
  l.foldl upsertById []

/-- The reconciliation of `route.ts` lines 310–311: history first, then
the freshly extracted batch, deduplicated by id with last-write-wins. -/
def mergeBookings (hist batch : List Booking) : List Booking :=
  mergeById (hist ++ batch)

/-- The id projection of a record list. -/
def ids (l : List Booking) : List String :=
  l.map (fun b => b.id)

/-- First-occurrence deduplication of a key list (JS `Set`/`Map` key
insertion order). -/
def dedupKeys (ks : List String) : List String :=
  ks.foldl (fun acc k => if k ∈ acc then acc else acc ++ [k]) []

/-- The last record of `l` carrying id `k`, if any (the value a JS map
holds for key `k` after inserting all of `l`). -/
def lastWithId (l : List Booking) (k : String) : Option Booking :=
  l.reverse.find? (fun b => b.id = k)

/-! ## Store (`db.ts`) -/

/-- `saveBookings` line 66: `const cappedBookings = bookings.slice(0, 1000);`
followed by the dev-mode write of exactly `cappedBookings`.  The stored
value is the first 1000 entries of the incoming list. -/
def saveBookingsCapped (bookings : List Booking) : List Booking :=
  bookings.take 1000

/-- `existing[0]?.id` (JS optional chaining: `undefined` on empty). -/
def headIdOpt (l : List Booking) : Option String :=
  l.head?.map (fun b => b.id)

/-- Production-mode `saveBookings` (`db.ts` lines 65–93): cap the
incoming list, then skip the Redis write entirely when the stored list
has the same length and the same first-element id as the capped
incoming list; otherwise overwrite with the capped list. -/
def saveBookingsProd (stored incoming : List Booking) : List Booking :=
  let capped := incoming.take 1000
  if stored.length = capped.length ∧ headIdOpt stored = headIdOpt capped then stored
  else capped

/-! ## Staleness and re-offer filter (`route.ts` lines 137–151) -/

/-- The staleness test of `route.ts` lines 139–144:
`h.bookingSlot === 'MISSING' || h.gameDate === 'TBD' ||
 h.location === 'Unknown Location' || !h.gameDate`. -/
def isStale (b : Booking) : Bool :=
  b.bookingSlot = "MISSING" || b.gameDate = "TBD" ||
    b.location = "Unknown Location" || b.gameDate = ""

/-- Modelled from the spec (§3): staleness as the specification defines
it — at least one of `bookingSlot`, `gameDate`, `location`,
`customerName`, `paidAmount` holds its sentinel (`MISSING`, `TBD`,
the unknown-location value, `N/A`, `N/A` respectively).  Stated here
only to compare with the code's `isStale`. -/
def specStale (b : Booking) : Bool :=
  b.bookingSlot = "MISSING" || b.gameDate = "TBD" ||
    b.location = "Unknown Location" ||
    b.customerName = some "N/A" || b.paidAmount = some "N/A"

/-- The uid filter of the scan loop (`route.ts` lines 148–151): a
message uid is offered to extraction unless it belongs to an existing
record and no stale existing record carries it
(`if (existingUids.has(uid) && !staleUids.has(uid)) continue;`). -/
def offeredForExtraction (history : List Booking) (uids : List String) : List String :=
  uids.filter (fun u =>
    !(history.any (fun h => h.id = u) && !(history.filter isStale).any (fun h => h.id = u)))

/-! ## Notification dispatch (`push.ts` `sendPushNotification`)

`subscriptions.filter(sub => { if (!location || location === 'Unknown'
|| location === 'General') return true; return sub.location === location; })` -/

/-- The set of subscribers a payload for `location` is delivered to. -/
def pushTargets (location : String) (subs : List Subscriber) : List Subscriber :=
  subs.filter (fun sub =>
    if location = "" || location = "Unknown" || location = "General" then true
    else sub.location = location)

/-! ## A small backtracking matcher for the route's regex patterns

A pattern is a function from the input suffix to the list of possible
consumed lengths, in the preference order JS regex backtracking would
try them (greedy quantifiers first, alternatives left to right).  The
head of the list is the length JS would report for a match starting at
that position. -/

def PatM : Type := List Char → List Nat

/-- Sequencing, respecting backtracking preference order. -/
def pSeq (p q : PatM) : PatM := fun cs =>
  (p cs).flatMap (fun n => (q (cs.drop n)).map (fun m => n + m))

/-- Ordered alternation (`a|b` tries `a` first). -/
def pAlt (p q : PatM) : PatM := fun cs => p cs ++ q cs

/-- `takesN f n cs`: the first `n` chars of `cs` exist and satisfy `f`. -/
def takesN (f : Char → Bool) : Nat → List Char → Bool
  | 0, _ => true
  | _ + 1, [] => false
  | n + 1, c :: cs => f c && takesN f n cs

/-- A character class repeated exactly `n` times. -/
def pExact (f : Char → Bool) (n : Nat) : PatM := fun cs =>
  if takesN f n cs then [n] else []

/-- A single literal character. -/
def pLit (c : Char) : PatM := pExact (fun d => d = c) 1

/-- Greedy `?`: try consuming first, then the empty alternative. -/
def pOpt (p : PatM) : PatM := fun cs => p cs ++ [0]

/-- Length of the maximal leading run of chars satisfying `f`. -/
def runLen (f : Char → Bool) : List Char → Nat
  | [] => 0
  | c :: cs => if f c then runLen f cs + 1 else 0

/-- Greedy `+` on a character class: longest run first, down to 1. -/
def pPlus (f : Char → Bool) : PatM := fun cs =>
  let m := runLen f cs
  (List.range m).map (fun i => m - i)

/-- Greedy `*` on a character class: longest run first, down to 0. -/
def pStar (f : Char → Bool) : PatM := fun cs =>
  let m := runLen f cs
  (List.range (m + 1)).map (fun i => m - i)

/-- JS `\w` (ASCII word character). -/
def isWordC (c : Char) : Bool := c.isAlphanum || c = '_'

/-- JS `\s` (the whitespace forms occurring in this pipeline's text). -/
def isSpaceC (c : Char) : Bool := c = ' ' || c = '\t' || c = '\n' || c = '\r'

/-- `\d{1,2}`, greedy (two digits preferred). -/
def pD12 : PatM := pAlt (pExact Char.isDigit 2) (pExact Char.isDigit 1)

/-- `extractDateOnly`'s first alternative `\d{4}-\d{2}-\d{2}`. -/
def dateP1 : PatM :=
  pSeq (pExact Char.isDigit 4) (pSeq (pLit '-')
    (pSeq (pExact Char.isDigit 2) (pSeq (pLit '-') (pExact Char.isDigit 2))))

/-- `\d{1,2}-\d{1,2}-\d{4}`. -/
def dateP2 : PatM :=
  pSeq pD12 (pSeq (pLit '-') (pSeq pD12 (pSeq (pLit '-') (pExact Char.isDigit 4))))

/-- `\d{1,2}\s+\w{3},\s*\d{4}`. -/
def dateP3 : PatM :=
  pSeq pD12 (pSeq (pPlus isSpaceC) (pSeq (pExact isWordC 3)
    (pSeq (pLit ',') (pSeq (pStar isSpaceC) (pExact Char.isDigit 4)))))

/-- `\w{3},?\s+\d{1,2},?\s*\d{4}`. -/
def dateP4 : PatM :=
  pSeq (pExact isWordC 3) (pSeq (pOpt (pLit ',')) (pSeq (pPlus isSpaceC)
    (pSeq pD12 (pSeq (pOpt (pLit ',')) (pSeq (pStar isSpaceC) (pExact Char.isDigit 4))))))

/-- `\d{1,2}\s+\w{3}\s+'\d{2}`. -/
def dateP5 : PatM :=
  pSeq pD12 (pSeq (pPlus isSpaceC) (pSeq (pExact isWordC 3)
    (pSeq (pPlus isSpaceC) (pSeq (pLit '\'') (pExact Char.isDigit 2)))))

/-- The alternation of `extractDateOnly` (`route.ts` line 33). -/
def datePat : PatM := pAlt dateP1 (pAlt dateP2 (pAlt dateP3 (pAlt dateP4 dateP5)))

/-- The broader fallback date pattern of `route.ts` line 281:
`/(\d{1,2}\s+\w{3}\s+'\d{2})/i`. -/
def fallbackDatePat : PatM := dateP5

/-- `AM|PM`, case-insensitive (the `i` flag). -/
def pAmPm : PatM :=
  pSeq (pExact (fun c => c = 'A' || c = 'a' || c = 'P' || c = 'p') 1)
    (pExact (fun c => c = 'M' || c = 'm') 1)

/-- `\d{1,2}:\d{2}\s*(?:AM|PM)`. -/
def timeCore : PatM :=
  pSeq pD12 (pSeq (pLit ':') (pSeq (pExact Char.isDigit 2)
    (pSeq (pStar isSpaceC) pAmPm)))

/-- The time pattern of `route.ts` line 41:
`\d{1,2}:\d{2}\s*(?:AM|PM)(?:\s*-\s*\d{1,2}:\d{2}\s*(?:AM|PM))?`. -/
def timePat : PatM :=
  pSeq timeCore (pOpt (pSeq (pStar isSpaceC)
    (pSeq (pLit '-') (pSeq (pStar isSpaceC) timeCore))))

/-- Leftmost match: position and preferred length, scanning start
positions left to right as JS `String.match` does. -/
def firstMatchLen (p : PatM) : List Char → Option (Nat × Nat)
  | [] =>
    match p [] with
    | n :: _ => some (0, n)
    | [] => none
  | c :: cs =>
    match p (c :: cs) with
    | n :: _ => some (0, n)
    | [] =>
      match firstMatchLen p cs with
      | some (i, n) => some (i + 1, n)
      | none => none

/-- JS `s.match(pat)?.[0]` (non-global): text of the first match. -/
def jsMatch (p : PatM) (s : String) : Option String :=
  (firstMatchLen p s.toList).map (fun r => ⟨(s.toList.drop r.1).take r.2⟩)

/-- All matches of a global regex, fuelled by the input length. -/
def jsMatchAllAux (p : PatM) : Nat → List Char → List (List Char)
  | 0, _ => []
  | fuel + 1, cs =>
    match firstMatchLen p cs with
    | none => []
    | some (i, n) =>
      ((cs.drop i).take n) :: jsMatchAllAux p fuel (cs.drop (i + max n 1))

/-- JS `s.match(pat)` with the `g` flag: every non-overlapping match,
left to right. -/
def jsMatchAll (p : PatM) (s : String) : List String :=
  (jsMatchAllAux p (s.toList.length + 1) s.toList).map (fun l => ⟨l⟩)

/-- `extractDateOnly` (`route.ts` lines 31–35): first match of the date
alternation, or `""`. -/
def extractDateOnly (slot : String) : String :=
  (jsMatch datePat slot).getD ""

/-! ## SlotMerger (`route.ts` lines 40–81) -/

/-- Numeric value of a digit character. -/
def digitVal (c : Char) : Nat := c.toNat - 48

/-- Model of `new Date('2000/01/01 ' + t).getTime()` for the time-of-day
strings this pipeline feeds it: minutes since midnight.  This is a
strictly monotone renaming of the epoch-milliseconds clock, so every
comparison the merge performs is preserved.  Returns `none` on text the
JS date parser would reject. -/
def parseTimeMin (cs : List Char) : Option Nat :=
  match cs with
  | [] => none
  | d1 :: rest =>
    if !d1.isDigit then none else
    let hr :=
      match rest with
      | d2 :: r2 => if d2.isDigit then (digitVal d1 * 10 + digitVal d2, r2) else (digitVal d1, rest)
      | [] => (digitVal d1, rest)
    match hr.2 with
    | ':' :: m1 :: m2 :: rest3 =>
      if m1.isDigit && m2.isDigit then
        let m := digitVal m1 * 10 + digitVal m2
        match rest3.dropWhile isSpaceC with
        | [a, mm] =>
          if (mm = 'M' || mm = 'm') && 1 ≤ hr.1 && hr.1 ≤ 12 && m ≤ 59 then
            if a = 'A' || a = 'a' then some ((hr.1 % 12) * 60 + m)
            else if a = 'P' || a = 'p' then some ((hr.1 % 12) * 60 + m + 720)
            else none
          else none
        | _ => none
      else none
    | _ => none

/-- Total version used by the merge (invalid text collapses to 0; the
theorems about the merge assume the inputs parse). -/
def parseTimeD (s : String) : Nat := (parseTimeMin s.toList).getD 0

/-- One normalized range object of `extractTimeOnly`
(`{ start, end, startT, endT }`). -/
structure TRange where
  startS : String
  endS : String
  startT : Nat
  endT : Nat
deriving DecidableEq, Repr

/-- JS `t.split('-')`: split a char list at every `'-'`. -/
def splitOnDash : List Char → List (List Char)
  | [] => [[]]
  | c :: rest =>
    if c = '-' then [] :: splitOnDash rest
    else
      match splitOnDash rest with
      | [] => [[c]]
      | p :: ps => (c :: p) :: ps

/-- JS `p.trim()`: drop leading and trailing whitespace. -/
def trimChars (cs : List Char) : List Char :=
  ((cs.dropWhile isSpaceC).reverse.dropWhile isSpaceC).reverse

/-- `route.ts` lines 45–52: split a match on `-`, trim, default the end
to the start (`parts[1] || parts[0]`, where an empty part is falsy), and
attach parsed instants. -/
def toRange (t : String) : TRange :=
  let parts := (splitOnDash t.toList).map (fun p => String.mk (trimChars p))
  let s := parts.headD ""
  let e :=
    match parts with
    | _ :: e' :: _ => if e' = "" then s else e'
    | _ => s
  ⟨s, e, parseTimeD s, parseTimeD e⟩

/-- The sort key of `ranges.sort((a, b) => a.startT - b.startT)`. -/
def rangeLE (a b : TRange) : Prop := a.startT ≤ b.startT

instance : DecidableRel rangeLE := fun a b => Nat.decLe a.startT b.startT

instance : IsTotal TRange rangeLE := ⟨fun a b => Nat.le_total a.startT b.startT⟩

instance : IsTrans TRange rangeLE := ⟨fun _ _ _ => Nat.le_trans⟩

/-- One iteration of the merge loop (`route.ts` lines 59–78): extend the
open interval on touch (`startT === endT`) or overlap with larger end,
absorb contained intervals, otherwise open a new one. -/
def slotMergeStep (acc : List TRange) (r : TRange) : List TRange :=
  match acc.getLast? with
  | none => [r]
  | some last =>
    if r.startT = last.endT then
      acc.dropLast ++ [{ last with endS := r.endS, endT := r.endT }]
    else if r.startT < last.endT then
      if last.endT < r.endT then
        acc.dropLast ++ [{ last with endS := r.endS, endT := r.endT }]
      else acc
    else acc ++ [r]

/-- The merge walk over the sorted ranges. -/
def mergeRanges (rs : List TRange) : List TRange :=
  rs.foldl slotMergeStep []

/-- `route.ts` line 80: render each interval and join with `' | '`. -/
def renderRanges (l : List TRange) : String :=
  String.intercalate " | "
    (l.map (fun m => if m.startS = m.endS then m.startS else m.startS ++ " - " ++ m.endS))

/-- The SlotMerger on a list of textual time matches: JS-`Set` dedup in
first-occurrence order, parse to ranges, stable sort by start instant,
merge, render (`route.ts` lines 44–80). -/
def slotMerge (timeMatches : List String) : String :=
  renderRanges (mergeRanges (List.insertionSort rangeLE ((dedupKeys timeMatches).map toRange)))

/-- `extractTimeOnly` (`route.ts` lines 40–81): collect the global time
matches of the slot text (`null` means `""`), then run the merger. -/
def extractTimeOnly (slot : String) : String :=
  match jsMatchAll timePat slot with
  | [] => ""
  | ms => slotMerge ms

/-! ## Record assembly (`route.ts` lines 278–303) -/

/-- The fixed sport list of `route.ts` line 288. -/
def sportsList : List String :=
  ["Badminton", "Cricket", "Pickleball", "Football", "Tennis", "Squash"]

/-- The sport loop of `route.ts` lines 287–291: first sport whose
lowercase name occurs in the (already lowercased) subject+body text,
else the empty string the loop started from. -/
def resolveSport (fullText : String) : String :=
  match sportsList.find? (fun s => strContains fullText (strLower s)) with
  | some s => s
  | none => ""

/-- The candidate record pushed by `route.ts` lines 278–303, given the
already-selected `bookingSlot` and the normalized body / lowercased
subject+body texts: date projection over the slot with one broader
body-wide fallback, time projection through the SlotMerger, the sport
loop, and the record literal. -/
def buildAlert (uid platform location bookingSlot normalizedText fullText subject : String)
    (ts : Nat) : Booking :=
  let gameDate0 := extractDateOnly bookingSlot
  let gameDate :=
    if gameDate0 = "" || gameDate0 = "MISSING" then
      match jsMatch fallbackDatePat normalizedText with
      | some d => d
      | none => gameDate0
    else gameDate0
  { id := uid, platform := platform, location := location, bookingSlot := bookingSlot,
    gameDate := gameDate, gameTime := extractTimeOnly bookingSlot,
    sport := resolveSport fullText, message := subject, timestamp := ts }

/-! ## Sync cycle entry (`route.ts` lines 83–328) and client retry -/

/-- Outcome of one `GET /api/check-emails` cycle: the JSON status, and
whether a mailbox connection was attempted, plus the store contents
after the cycle (dev-mode persistence). -/
structure SyncResult where
  success : Bool
  message : String
  connectionAttempted : Bool
  store : List Booking
deriving DecidableEq, Repr

/-- The route's top-level control flow, abstracted over the extraction
outcome `alerts`: the credential guard of lines 88–91 runs before any
connection or store access and returns the `not configured` failure
with the history untouched; otherwise the cycle connects and, only when
`alerts` is non-empty (line 308), merges and persists (lines 309–313). -/
def syncCycle (emailUser emailPassword : Option String) (history alerts : List Booking) :
    SyncResult :=
  if emailUser.getD "" = "" || emailPassword.getD "" = "" then
    { success := false, message := "Email credentials not configured",
      connectionAttempted := false, store := history }
  else
    { success := true, message := "",
      connectionAttempted := true,
      store := if alerts.isEmpty then history
               else saveBookingsCapped (mergeBookings history alerts) }

/-- The dashboard's retry decision (`page.tsx` `checkEmails`): a retry
is scheduled only from the `catch` of a failed fetch, never from a
response that was received — however unsuccessful its body. -/
def clientRetryScheduled (fetchOk : Bool) (retriesLeft : Nat) : Bool :=
  !fetchOk && decide (0 < retriesLeft)

/-! ## Lemmas: first-occurrence key deduplication -/

theorem dedupKeys_snoc (ks : List String) (k : String) :
    dedupKeys (ks ++ [k]) =
      if k ∈ dedupKeys ks then dedupKeys ks else dedupKeys ks ++ [k] := by
  simp [dedupKeys, List.foldl_append]

theorem mem_dedupKeys (ks : List String) : ∀ a, a ∈ dedupKeys ks ↔ a ∈ ks := by
  induction ks using List.reverseRecOn with
  | nil => intro a; simp [dedupKeys]
  | append_singleton ks k ih =>
    intro a
    rw [dedupKeys_snoc]
    by_cases h : k ∈ dedupKeys ks
    · rw [if_pos h, ih a]
      have hk : k ∈ ks := (ih k).mp h
      simp only [List.mem_append, List.mem_singleton]
      exact ⟨Or.inl, fun h' => h'.elim id (fun he => he ▸ hk)⟩
    · rw [if_neg h]
      simp only [List.mem_append, List.mem_singleton, ih a]

theorem nodup_dedupKeys (ks : List String) : (dedupKeys ks).Nodup := by
  induction ks using List.reverseRecOn with
  | nil => simp [dedupKeys]
  | append_singleton ks k ih =>
    rw [dedupKeys_snoc]
    by_cases h : k ∈ dedupKeys ks
    · simpa [h]
    · simpa [h, List.nodup_append] using ih

theorem dedupKeys_eq_self (ks : List String) (h : ks.Nodup) : dedupKeys ks = ks := by
  induction ks using List.reverseRecOn with
  | nil => simp [dedupKeys]
  | append_singleton ks k ih =>
    have h1 : ks.Nodup := h.of_append_left
    have h2 : k ∉ ks := by
      intro hk
      exact (List.disjoint_of_nodup_append h) hk (List.mem_singleton_self k)
    simp [dedupKeys_snoc, ih h1, h2]

theorem dedupKeys_append_of_subset (xs ys : List String) (h : ∀ k ∈ ys, k ∈ xs) :
    dedupKeys (xs ++ ys) = dedupKeys xs := by
  induction ys using List.reverseRecOn with
  | nil => simp
  | append_singleton ys k ih =>
    have hk : k ∈ xs := h k (by simp)
    have ih' := ih (fun a ha => h a (by simp [ha]))
    rw [← List.append_assoc, dedupKeys_snoc, ih', if_pos ((mem_dedupKeys xs k).mpr hk)]

/-! ## Lemmas: the id-keyed map -/

theorem any_id_eq (m : List Booking) (k : String) :
    m.any (fun x => x.id = k) = true ↔ k ∈ ids m := by
  simp [ids, List.any_eq_true]

theorem ids_upsertById (m : List Booking) (b : Booking) (h : b.id ∈ ids m) :
    ids (upsertById m b) = ids m := by
  unfold upsertById
  rw [if_pos ((any_id_eq m b.id).mpr h)]
  simp only [ids, List.map_map]
  apply List.map_congr_left
  intro x _
  by_cases hxb : x.id = b.id
  · simp [hxb]
  · simp [hxb]

theorem upsertById_of_not_mem (m : List Booking) (b : Booking) (h : b.id ∉ ids m) :
    upsertById m b = m ++ [b] := by
  unfold upsertById
  rw [if_neg]
  intro hc
  exact h ((any_id_eq m b.id).mp hc)

theorem mem_upsertById_of_mem (m : List Booking) (b x : Booking) (h : b.id ∈ ids m) :
    x ∈ upsertById m b ↔ x = b ∨ (x ∈ m ∧ x.id ≠ b.id) := by
  unfold upsertById
  rw [if_pos ((any_id_eq m b.id).mpr h)]
  simp only [List.mem_map]
  constructor
  · rintro ⟨y, hy, hf⟩
    by_cases hyb : y.id = b.id
    · left; rw [← hf, if_pos hyb]
    · right
      rw [← hf, if_neg hyb]
      exact ⟨hy, hyb⟩
  · rintro (rfl | ⟨hx, hxb⟩)
    · obtain ⟨y, hy, hyid⟩ := by simpa only [ids, List.mem_map] using h
      exact ⟨y, hy, by rw [if_pos hyid]⟩
    · exact ⟨x, hx, by rw [if_neg hxb]⟩

theorem mergeById_snoc (l : List Booking) (b : Booking) :
    mergeById (l ++ [b]) = upsertById (mergeById l) b := by
  simp [mergeById, List.foldl_append]

theorem ids_append (xs ys : List Booking) : ids (xs ++ ys) = ids xs ++ ids ys := by
  simp [ids]

theorem ids_mergeById (l : List Booking) : ids (mergeById l) = dedupKeys (ids l) := by
  induction l using List.reverseRecOn with
  | nil => simp [mergeById, dedupKeys, ids]
  | append_singleton l b ih =>
    have hsnoc : ids (l ++ [b]) = ids l ++ [b.id] := by simp [ids]
    rw [mergeById_snoc, hsnoc, dedupKeys_snoc]
    by_cases h : b.id ∈ dedupKeys (ids l)
    · have h' : b.id ∈ ids (mergeById l) := by rw [ih]; exact h
      rw [ids_upsertById _ _ h', ih, if_pos h]
    · have h' : b.id ∉ ids (mergeById l) := by rw [ih]; exact h
      rw [upsertById_of_not_mem _ _ h', if_neg h, ids_append, ih]
      simp [ids]

theorem nodup_ids_mergeById (l : List Booking) : (ids (mergeById l)).Nodup := by
  rw [ids_mergeById]; exact nodup_dedupKeys _

/-! ## Lemmas: last record with a given id -/

theorem lastWithId_snoc (l : List Booking) (b : Booking) (k : String) :
    lastWithId (l ++ [b]) k = if b.id = k then some b else lastWithId l k := by
  unfold lastWithId
  rw [List.reverse_append]
  by_cases h : b.id = k
  · simp [h]
  · simp [h]

theorem lastWithId_eq_none (l : List Booking) (k : String) :
    lastWithId l k = none ↔ k ∉ ids l := by
  simp only [lastWithId, List.find?_eq_none, List.mem_reverse, decide_eq_true_eq,
    ids, List.mem_map]
  constructor
  · rintro h ⟨x, hx, he⟩
    exact h x hx he
  · intro h x hx he
    exact h ⟨x, hx, he⟩

theorem lastWithId_mem (l : List Booking) (k : String) (b : Booking)
    (h : lastWithId l k = some b) : b ∈ l ∧ b.id = k := by
  refine ⟨?_, ?_⟩
  · have := List.mem_of_find?_eq_some h
    simpa using this
  · have := List.find?_some h
    simpa using this

theorem lastWithId_append (xs ys : List Booking) (k : String) :
    lastWithId (xs ++ ys) k = (lastWithId ys k).or (lastWithId xs k) := by
  simp [lastWithId, List.reverse_append, List.find?_append]

theorem lastWithId_of_nodup (l : List Booking) (hnd : (ids l).Nodup) (b : Booking)
    (hb : b ∈ l) : lastWithId l b.id = some b := by
  induction l with
  | nil => cases hb
  | cons x xs ih =>
    have hx0 : ids (x :: xs) = x.id :: ids xs := by simp [ids]
    have hnx : x.id ∉ ids xs := by
      rw [hx0] at hnd; exact (List.nodup_cons.mp hnd).1
    have hxs : (ids xs).Nodup := by
      rw [hx0] at hnd; exact (List.nodup_cons.mp hnd).2
    have hsplit : x :: xs = [x] ++ xs := rfl
    rcases List.mem_cons.mp hb with rfl | hb'
    · have hnone : lastWithId xs b.id = none := (lastWithId_eq_none xs b.id).mpr hnx
      rw [hsplit, lastWithId_append, hnone]
      simp [lastWithId]
    · rw [hsplit, lastWithId_append, ih hxs hb']
      simp

theorem mem_mergeById (l : List Booking) (x : Booking) :
    x ∈ mergeById l ↔ x.id ∈ ids l ∧ lastWithId l x.id = some x := by
  induction l using List.reverseRecOn with
  | nil => simp [mergeById, ids, lastWithId]
  | append_singleton l c ih =>
    have hsnoc : ids (l ++ [c]) = ids l ++ [c.id] := by simp [ids]
    rw [mergeById_snoc, lastWithId_snoc, hsnoc]
    by_cases h : c.id ∈ ids (mergeById l)
    · have hl : c.id ∈ ids l := by
        rw [ids_mergeById] at h; exact (mem_dedupKeys (ids l) c.id).mp h
      rw [mem_upsertById_of_mem _ _ _ h]
      constructor
      · rintro (rfl | ⟨hxm, hxne⟩)
        · exact ⟨by simp [hl], by simp⟩
        · obtain ⟨hxl, hlast⟩ := ih.mp hxm
          refine ⟨by simp [hxl], ?_⟩
          rw [if_neg (fun hc => hxne (by rw [hc]))]
          exact hlast
      · rintro ⟨hmem, hlast⟩
        by_cases hceq : c.id = x.id
        · rw [if_pos hceq] at hlast
          left; exact (Option.some_inj.mp hlast).symm
        · rw [if_neg hceq] at hlast
          have hxl : x.id ∈ ids l := by
            rcases List.mem_append.mp hmem with h' | h'
            · exact h'
            · exact absurd (List.mem_singleton.mp h').symm hceq
          right
          exact ⟨ih.mpr ⟨hxl, hlast⟩, fun he => hceq he.symm⟩
    · have hl : c.id ∉ ids l := by
        rw [ids_mergeById] at h
        exact fun hc => h ((mem_dedupKeys (ids l) c.id).mpr hc)
      rw [upsertById_of_not_mem _ _ h]
      simp only [List.mem_append, List.mem_singleton]
      constructor
      · rintro (hxm | rfl)
        · obtain ⟨hxl, hlast⟩ := ih.mp hxm
          have hne : c.id ≠ x.id := fun he => hl (he ▸ hxl)
          exact ⟨Or.inl hxl, by rw [if_neg hne]; exact hlast⟩
        · exact ⟨Or.inr rfl, by simp⟩
      · rintro ⟨hmem, hlast⟩
        by_cases hceq : c.id = x.id
        · rw [if_pos hceq] at hlast
          right; exact (Option.some_inj.mp hlast).symm
        · rw [if_neg hceq] at hlast
          have hxl : x.id ∈ ids l := by
            rcases hmem with h' | h'
            · exact h'
            · exact absurd h'.symm hceq
          left; exact ih.mpr ⟨hxl, hlast⟩

theorem lastWithId_mergeById (l : List Booking) (k : String) :
    lastWithId (mergeById l) k = lastWithId l k := by
  cases h : lastWithId l k with
  | none =>
    have hk : k ∉ ids l := (lastWithId_eq_none l k).mp h
    refine (lastWithId_eq_none _ k).mpr ?_
    rw [ids_mergeById]
    exact fun hc => hk ((mem_dedupKeys (ids l) k).mp hc)
  | some v =>
    obtain ⟨hv, hvk⟩ := lastWithId_mem l k v h
    have hkl : k ∈ ids l := by
      by_contra hn
      rw [(lastWithId_eq_none l k).mpr hn] at h
      cases h
    have hvm : v ∈ mergeById l := by
      rw [mem_mergeById, hvk]
      exact ⟨hkl, h⟩
    have := lastWithId_of_nodup (mergeById l) (nodup_ids_mergeById l) v hvm
    rwa [hvk] at this

theorem eq_of_ids_eq_of_mem_iff (l₁ : List Booking) :
    ∀ l₂ : List Booking, (ids l₁).Nodup → ids l₁ = ids l₂ →
      (∀ b, b ∈ l₁ ↔ b ∈ l₂) → l₁ = l₂ := by
  induction l₁ with
  | nil =>
    intro l₂ _ hid _
    have : ids l₂ = [] := hid.symm
    cases l₂ with
    | nil => rfl
    | cons y ys => simp [ids] at this
  | cons x xs ih =>
    intro l₂ hnd hid hmem
    cases l₂ with
    | nil => simp [ids] at hid
    | cons y ys =>
      have hidc : x.id = y.id ∧ ids xs = ids ys := by
        simpa [ids] using hid
      have hnx : x.id ∉ ids xs := by
        simp only [ids] at hnd ⊢
        exact (List.nodup_cons.mp (by simpa [ids] using hnd)).1
      have hxy : x = y := by
        rcases List.mem_cons.mp ((hmem x).mp (List.mem_cons_self x xs)) with h | h
        · exact h
        · exfalso
          have : x.id ∈ ids ys := by
            simp only [ids, List.mem_map]; exact ⟨x, h, rfl⟩
          rw [← hidc.2] at this
          exact hnx this
      subst hxy
      have hnxs : (ids xs).Nodup := by
        exact (List.nodup_cons.mp (by simpa [ids] using hnd)).2
      have hmem' : ∀ b, b ∈ xs ↔ b ∈ ys := by
        intro b
        constructor
        · intro hb
          rcases List.mem_cons.mp ((hmem b).mp (List.mem_cons_of_mem x hb)) with h | h
          · subst h
            exfalso
            exact hnx (by simp only [ids, List.mem_map]; exact ⟨b, hb, rfl⟩)
          · exact h
        · intro hb
          rcases List.mem_cons.mp ((hmem b).mpr (List.mem_cons_of_mem x hb)) with h | h
          · subst h
            exfalso
            have : b.id ∈ ids ys := by
              simp only [ids, List.mem_map]; exact ⟨b, hb, rfl⟩
            rw [← hidc.2] at this
            exact hnx this
          · exact h
      exact congrArg (x :: ·) (ih ys hnxs hidc.2 hmem')

theorem mergeById_congr (l₁ l₂ : List Booking)
    (hk : dedupKeys (ids l₁) = dedupKeys (ids l₂))
    (hv : ∀ k, lastWithId l₁ k = lastWithId l₂ k) :
    mergeById l₁ = mergeById l₂ := by
  apply eq_of_ids_eq_of_mem_iff
  · exact nodup_ids_mergeById l₁
  · rw [ids_mergeById, ids_mergeById, hk]
  · intro b
    rw [mem_mergeById, mem_mergeById, hv b.id]
    have : b.id ∈ ids l₁ ↔ b.id ∈ ids l₂ := by
      rw [← mem_dedupKeys (ids l₁) b.id, ← mem_dedupKeys (ids l₂) b.id, hk]
    rw [this]

theorem mergeById_eq_self (l : List Booking) (h : (ids l).Nodup) : mergeById l = l := by
  induction l using List.reverseRecOn with
  | nil => rfl
  | append_singleton l b ih =>
    have hsnoc : ids (l ++ [b]) = ids l ++ [b.id] := by simp [ids]
    rw [hsnoc] at h
    have h1 : (ids l).Nodup := h.of_append_left
    have h2 : b.id ∉ ids l := by
      intro hb
      exact (List.disjoint_of_nodup_append h) hb (List.mem_singleton_self _)
    rw [mergeById_snoc, ih h1, upsertById_of_not_mem _ _ h2]

/-! ## Reconciliation facts used by the claims -/

theorem mem_batch_mergeBookings (hist batch : List Booking)
    (hb : (ids batch).Nodup) (b : Booking) (hmem : b ∈ batch) :
    b ∈ mergeBookings hist batch := by
  rw [mergeBookings, mem_mergeById, ids_append]
  constructor
  · exact List.mem_append_right _ (by simp only [ids, List.mem_map]; exact ⟨b, hmem, rfl⟩)
  · rw [lastWithId_append, lastWithId_of_nodup batch hb b hmem]
    rfl

theorem mem_hist_mergeBookings (hist batch : List Booking)
    (hh : (ids hist).Nodup) (h : Booking) (hmem : h ∈ hist) (hni : h.id ∉ ids batch) :
    h ∈ mergeBookings hist batch := by
  rw [mergeBookings, mem_mergeById, ids_append]
  constructor
  · exact List.mem_append_left _ (by simp only [ids, List.mem_map]; exact ⟨h, hmem, rfl⟩)
  · rw [lastWithId_append, (lastWithId_eq_none batch h.id).mpr hni,
      lastWithId_of_nodup hist hh h hmem]
    rfl

theorem mem_mergeBookings_cases (hist batch : List Booking) (r : Booking)
    (hmem : r ∈ mergeBookings hist batch) :
    r ∈ batch ∨ (r ∈ hist ∧ r.id ∉ ids batch) := by
  rw [mergeBookings, mem_mergeById] at hmem
  obtain ⟨_, hlast⟩ := hmem
  rw [lastWithId_append] at hlast
  cases hb : lastWithId batch r.id with
  | some v =>
    rw [hb] at hlast
    have hvr : v = r := Option.some_inj.mp hlast
    have hvb := (lastWithId_mem batch r.id v hb).1
    rw [hvr] at hvb
    exact Or.inl hvb
  | none =>
    rw [hb] at hlast
    have hni : r.id ∉ ids batch := (lastWithId_eq_none batch r.id).mp hb
    exact Or.inr ⟨(lastWithId_mem hist r.id r hlast).1, hni⟩

/-- C3: reconciling the batch `B` against the result of reconciling `B`
against history `H` yields exactly the same store contents as
reconciling once — both as the merged list and after the store's
retention cap is applied. -/
theorem C3_merge_idempotent (hist batch : List Booking) :
    mergeBookings (mergeBookings hist batch) batch = mergeBookings hist batch ∧
    saveBookingsCapped (mergeBookings (mergeBookings hist batch) batch) =
      saveBookingsCapped (mergeBookings hist batch) := by
  have hmain : mergeBookings (mergeBookings hist batch) batch = mergeBookings hist batch := by
    show mergeById (mergeById (hist ++ batch) ++ batch) = mergeById (hist ++ batch)
    apply mergeById_congr
    · rw [ids_append, ids_mergeById]
      have hsub : ∀ k ∈ ids batch, k ∈ dedupKeys (ids (hist ++ batch)) := by
        intro k hk
        rw [mem_dedupKeys, ids_append]
        exact List.mem_append_right _ hk
      rw [dedupKeys_append_of_subset _ _ hsub]
      exact dedupKeys_eq_self _ (nodup_dedupKeys _)
    · intro k
      rw [lastWithId_append, lastWithId_append, lastWithId_mergeById]
      cases hbk : lastWithId batch k with
      | some v => rfl
      | none =>
        show Option.or none (lastWithId (hist ++ batch) k) = _
        rw [Option.none_or, lastWithId_append, hbk, Option.none_or]
  exact ⟨hmain, by rw [hmain]⟩

/-- C2: for every history `H` and batch `B` (each with internally unique
ids), the reconciled result has unique ids; it contains every batch
record (so for an id in both, the batch's record — wholesale
replacement); it retains unchanged every history record whose id is not
in the batch; and it contains nothing else. -/
theorem C2_reconcile_spec (hist batch : List Booking)
    (hh : (ids hist).Nodup) (hb : (ids batch).Nodup) :
    (ids (mergeBookings hist batch)).Nodup ∧
    (∀ b ∈ batch, b ∈ mergeBookings hist batch) ∧
    (∀ h ∈ hist, h.id ∉ ids batch → h ∈ mergeBookings hist batch) ∧
    (∀ r ∈ mergeBookings hist batch, r ∈ batch ∨ (r ∈ hist ∧ r.id ∉ ids batch)) := by
  refine ⟨nodup_ids_mergeById _, ?_, ?_, ?_⟩
  · intro b hbm
    exact mem_batch_mergeBookings hist batch hb b hbm
  · intro h hm hni
    exact mem_hist_mergeBookings hist batch hh h hm hni
  · intro r hr
    exact mem_mergeBookings_cases hist batch r hr

/-- A small concrete history: record `"1"` fully resolved, record `"2"`
stale (`bookingSlot = "MISSING"`, empty `gameDate`). -/
def histW : List Booking :=
  [{ id := "1", platform := "Playo", location := "Andheri", bookingSlot := "A",
     gameDate := "1 Feb, 2026", gameTime := "7:00 PM", sport := "Badminton",
     message := "m1", timestamp := 1 },
   { id := "2", platform := "Hudle", location := "Thane", bookingSlot := "MISSING",
     gameDate := "", gameTime := "", sport := "", message := "m2", timestamp := 2 }]

/-- A concrete batch: record `"2"` re-extracted with new content, record
`"3"` new. -/
def batchW : List Booking :=
  [{ id := "2", platform := "Hudle", location := "Thane", bookingSlot := "B",
     gameDate := "2 Feb, 2026", gameTime := "8:00 PM", sport := "Cricket",
     message := "m2b", timestamp := 5 },
   { id := "3", platform := "District", location := "Powai", bookingSlot := "C",
     gameDate := "3 Feb, 2026", gameTime := "9:00 PM", sport := "Tennis",
     message := "m3", timestamp := 6 }]

theorem C2_reconcile_spec_witness :
    (ids histW).Nodup ∧ (ids batchW).Nodup ∧
    (∀ b ∈ batchW, b ∈ mergeBookings histW batchW) ∧
    (∀ h ∈ histW, h.id ∉ ids batchW → h ∈ mergeBookings histW batchW) :=
  ⟨by decide, by decide,
   (C2_reconcile_spec histW batchW (by decide) (by decide)).2.1,
   (C2_reconcile_spec histW batchW (by decide) (by decide)).2.2.1⟩

/-! ## The re-offer filter, characterized -/

theorem mem_offeredForExtraction (history : List Booking) (uids : List String) (u : String) :
    u ∈ offeredForExtraction history uids ↔
      u ∈ uids ∧ (u ∉ ids history ∨ ∃ r ∈ history, isStale r = true ∧ r.id = u) := by
  unfold offeredForExtraction
  rw [List.mem_filter]
  constructor
  · rintro ⟨hu, hp⟩
    refine ⟨hu, ?_⟩
    by_cases hex : u ∈ ids history
    · right
      have h1 : history.any (fun h => h.id = u) = true := (any_id_eq _ _).mpr hex
      rw [h1] at hp
      simp only [Bool.true_and, Bool.not_not] at hp
      have hmem := (any_id_eq _ _).mp hp
      obtain ⟨r, hr, hru⟩ := by simpa only [ids, List.mem_map] using hmem
      rw [List.mem_filter] at hr
      exact ⟨r, hr.1, hr.2, hru⟩
    · exact Or.inl hex
  · rintro ⟨hu, hcase⟩
    refine ⟨hu, ?_⟩
    rcases hcase with hni | ⟨r, hr, hst, hru⟩
    · have hfalse : history.any (fun h => h.id = u) = false :=
        Bool.eq_false_iff.mpr (fun hc => hni ((any_id_eq _ _).mp hc))
      simp [hfalse]
    · have h2 : (history.filter isStale).any (fun h => h.id = u) = true := by
        rw [any_id_eq]
        simp only [ids, List.mem_map]
        exact ⟨r, List.mem_filter.mpr ⟨hr, hst⟩, hru⟩
      simp [h2]

/-- The record that refutes C4's staleness characterization: every
spec-listed field is resolved (`customerName`/`paidAmount` are genuine
values, not `N/A`), yet `gameDate` is the empty string — exactly what
the route produces when both date projections fail. -/
def emptyDateRec : Booking :=
  { id := "42", platform := "Playo", location := "Andheri",
    bookingSlot := "31-01-2026, 7:00 PM - 8:00 PM", gameDate := "",
    gameTime := "7:00 PM - 8:00 PM", sport := "Badminton",
    message := "Booking confirmed", timestamp := 5,
    customerName := some "Alice", paidAmount := some "500" }

/-- C4 counterexample: `emptyDateRec` is an existing persisted record
that the cycle re-offers to extraction (`offeredForExtraction` keeps its
uid), yet no field of it holds a sentinel, so the claim's
"re-offered only if at least one of bookingSlot, gameDate, location,
customerName, paidAmount holds its sentinel" is false: the code also
re-offers on an empty `gameDate` (`!h.gameDate`), which is not a
sentinel. -/
theorem C4_counterexample :
    emptyDateRec.id = "42" ∧
    offeredForExtraction [emptyDateRec] ["42"] = ["42"] ∧
    specStale emptyDateRec = false := by decide

/-- C4 amended: an existing persisted id in the scanned range is
re-offered to extraction exactly when its record is stale in the code's
sense (`bookingSlot = "MISSING"`, `gameDate = "TBD"`, `location =
"Unknown Location"`, or an empty `gameDate` — `customerName` and
`paidAmount` are not consulted); and an existing record that is not
code-stale is never mutated by the cycle: it survives reconciliation
unchanged whenever the batch only carries offered uids. -/
theorem C4_amended (history batch : List Booking) (uids : List String)
    (hh : (ids history).Nodup)
    (hat : ∀ b ∈ batch, b.id ∈ offeredForExtraction history uids) :
    (∀ u ∈ uids, ∀ r ∈ history, r.id = u →
        (u ∈ offeredForExtraction history uids ↔ isStale r = true)) ∧
    (∀ r ∈ history, isStale r = false → r ∈ mergeBookings history batch) := by
  have hhm : (history.map (fun b => b.id)).Nodup := by
    simpa only [ids] using hh
  have key : ∀ u ∈ uids, ∀ r ∈ history, r.id = u →
      (u ∈ offeredForExtraction history uids ↔ isStale r = true) := by
    intro u hu r hr hru
    rw [mem_offeredForExtraction]
    constructor
    · rintro ⟨-, hni | ⟨r', hr', hst, hr'u⟩⟩
      · exact absurd (by simp only [ids, List.mem_map]; exact ⟨r, hr, hru⟩) hni
      · have hrr : r' = r :=
          List.inj_on_of_nodup_map hhm hr' hr (by rw [hr'u, hru])
        rw [← hrr]
        exact hst
    · intro hst
      exact ⟨hu, Or.inr ⟨r, hr, hst, hru⟩⟩
  refine ⟨key, ?_⟩
  intro r hr hns
  have hni : r.id ∉ ids batch := by
    intro hin
    obtain ⟨b, hbm, hbid⟩ := by simpa only [ids, List.mem_map] using hin
    have hoff := hat b hbm
    rw [hbid] at hoff
    have hu : r.id ∈ uids :=
      ((mem_offeredForExtraction history uids r.id).mp hoff).1
    have := (key r.id hu r hr rfl).mp hoff
    rw [hns] at this
    cases this
  exact mem_hist_mergeBookings history batch hh r hr hni

/-- The uid window used by the C4 witness. -/
def uidsW : List String := ["1", "2", "3"]

theorem C4_amended_witness :
    (ids histW).Nodup ∧
    (∀ b ∈ batchW, b.id ∈ offeredForExtraction histW uidsW) ∧
    (∀ u ∈ uidsW, ∀ r ∈ histW, r.id = u →
        (u ∈ offeredForExtraction histW uidsW ↔ isStale r = true)) ∧
    (∀ r ∈ histW, isStale r = false → r ∈ mergeBookings histW batchW) :=
  ⟨by decide, by decide,
   (C4_amended histW batchW uidsW (by decide) (by decide)).1,
   (C4_amended histW batchW uidsW (by decide) (by decide)).2⟩

/-! ## A concrete over-cap reconciliation for claim C1 -/

/-- The `i`-th pre-existing history record (older: small timestamps). -/
def mkOld (i : Nat) : Booking :=
  { id := ⟨List.replicate (i + 1) 'a'⟩, platform := "OLD", location := "Andheri",
    bookingSlot := "S", gameDate := "1 Feb, 2026", gameTime := "7:00 PM",
    sport := "Badminton", message := "old", timestamp := i }

/-- The `j`-th freshly extracted record (newer: large timestamps). -/
def mkNew (j : Nat) : Booking :=
  { id := ⟨List.replicate (j + 1) 'b'⟩, platform := "NEW", location := "Thane",
    bookingSlot := "S2", gameDate := "9 Feb, 2026", gameTime := "8:00 PM",
    sport := "Cricket", message := "new", timestamp := 10000 + j }

/-- 1040 already-persisted records. -/
def histC1 : List Booking := (List.range 1040).map mkOld

/-- 10 new records arriving in one sync cycle. -/
def batchC1 : List Booking := (List.range 10).map mkNew

/-- The merged list the route hands to `saveBookings` (1050 records). -/
def mergedC1 : List Booking := mergeBookings histC1 batchC1

theorem mkOld_id_inj (i j : Nat) (h : (mkOld i).id = (mkOld j).id) : i = j := by
  have hd := congrArg String.data h
  simp only [mkOld] at hd
  have := congrArg List.length hd
  simpa using this

theorem mkNew_id_inj (i j : Nat) (h : (mkNew i).id = (mkNew j).id) : i = j := by
  have hd := congrArg String.data h
  simp only [mkNew] at hd
  have := congrArg List.length hd
  simpa using this

theorem mkOld_id_ne_mkNew_id (i j : Nat) : (mkOld i).id ≠ (mkNew j).id := by
  intro h
  have hd := congrArg String.data h
  simp only [mkOld, mkNew, List.replicate_succ, List.cons.injEq] at hd
  exact absurd hd.1 (by decide)

theorem nodup_ids_histC1 : (ids histC1).Nodup := by
  have he : ids histC1 = (List.range 1040).map (fun i => (mkOld i).id) := by
    simp [ids, histC1, List.map_map]
  rw [he]
  exact List.Nodup.map (fun i j h => mkOld_id_inj i j h) (List.nodup_range 1040)

theorem nodup_ids_batchC1 : (ids batchC1).Nodup := by
  have he : ids batchC1 = (List.range 10).map (fun j => (mkNew j).id) := by
    simp [ids, batchC1, List.map_map]
  rw [he]
  exact List.Nodup.map (fun i j h => mkNew_id_inj i j h) (List.nodup_range 10)

theorem nodup_ids_combinedC1 : (ids (histC1 ++ batchC1)).Nodup := by
  rw [ids_append]
  refine List.Nodup.append nodup_ids_histC1 nodup_ids_batchC1 ?_
  intro a ha hb
  obtain ⟨x, hx, hxa⟩ := by simpa only [ids, histC1, List.mem_map] using ha
  obtain ⟨y, hy, hyb⟩ := by simpa only [ids, batchC1, List.mem_map] using hb
  obtain ⟨i, -, rfl⟩ := hx
  obtain ⟨j, -, rfl⟩ := hy
  exact mkOld_id_ne_mkNew_id i j (by rw [hxa, hyb])

theorem mergedC1_eq : mergedC1 = histC1 ++ batchC1 :=
  mergeById_eq_self _ nodup_ids_combinedC1

theorem storedC1_eq : saveBookingsCapped mergedC1 = (List.range 1000).map mkOld := by
  rw [mergedC1_eq]
  show (histC1 ++ batchC1).take 1000 = _
  rw [List.take_append_eq_append_take]
  have h2 : batchC1.take (1000 - histC1.length) = [] := by
    have hl : histC1.length = 1040 := by simp [histC1]
    rw [hl]
    rfl
  have h1 : histC1.take 1000 = (List.range 1000).map mkOld := by
    rw [histC1, ← List.map_take, List.take_range]
    norm_num
  rw [h1, h2, List.append_nil]

/-- C1 counterexample: a merged list of 1050 records (1040 existing,
10 newly appended — the route's merge order) persisted through the
store's cap keeps the 1000 *oldest* records and drops every new one:
the newest record `mkNew 0` is in the merged list but not in the stored
list, the oldest record `mkOld 0` is retained, and every retained
record is strictly older than the dropped `mkNew 0`.  This refutes
"keeps exactly the 1000 newest records, truncating the oldest". -/
theorem C1_counterexample :
    mergedC1.length = 1050 ∧
    mkNew 0 ∈ mergedC1 ∧
    mkNew 0 ∉ saveBookingsCapped mergedC1 ∧
    mkOld 0 ∈ saveBookingsCapped mergedC1 ∧
    (∀ s ∈ saveBookingsCapped mergedC1, s.timestamp < (mkNew 0).timestamp) := by
  refine ⟨?_, ?_, ?_, ?_, ?_⟩
  · rw [mergedC1_eq]
    simp [histC1, batchC1]
  · rw [mergedC1_eq]
    refine List.mem_append_right _ ?_
    rw [batchC1]
    exact List.mem_map.mpr ⟨0, by norm_num, rfl⟩
  · rw [storedC1_eq]
    intro hmem
    obtain ⟨i, -, he⟩ := List.mem_map.mp hmem
    have := congrArg Booking.platform he
    simp [mkOld, mkNew] at this
  · rw [storedC1_eq]
    exact List.mem_map.mpr ⟨0, by norm_num, rfl⟩
  · rw [storedC1_eq]
    intro s hs
    obtain ⟨i, hi, he⟩ := List.mem_map.mp hs
    rw [← he]
    have hlt := List.mem_range.mp hi
    simp only [mkOld, mkNew]
    omega

/-- C1 amended: persisting a merged list longer than the retention cap
through the store keeps exactly the first 1000 entries of the list, in
list order (a prefix), and truncates the entries beyond position 1000 —
with the route's merge order (existing history first, fresh records
appended) those are the newest records, not the oldest. -/
theorem C1_amended (l : List Booking) (h : 1000 < l.length) :
    (saveBookingsCapped l).length = 1000 ∧
    ∃ dropped, saveBookingsCapped l ++ dropped = l ∧
      dropped.length = l.length - 1000 ∧ dropped ≠ [] := by
  refine ⟨?_, l.drop 1000, List.take_append_drop 1000 l, ?_, ?_⟩
  · rw [saveBookingsCapped, List.length_take]
    omega
  · rw [List.length_drop]
  · intro hc
    have := congrArg List.length hc
    rw [List.length_drop] at this
    simp at this
    omega

theorem C1_amended_witness :
    1000 < histC1.length ∧
    (saveBookingsCapped histC1).length = 1000 ∧
    ∃ dropped, saveBookingsCapped histC1 ++ dropped = histC1 ∧
      dropped.length = histC1.length - 1000 ∧ dropped ≠ [] :=
  ⟨by simp [histC1], (C1_amended histC1 (by simp [histC1])).1,
   (C1_amended histC1 (by simp [histC1])).2⟩

/-- C7: any message whose combined (lowercased) subject+sender text
contains a review/feedback keyword is rejected by the classifier — no
platform is assigned, whatever else the text contains, because the
review check runs (and `continue`s) before platform matching. -/
theorem C7_review_overrides_platform (subject from_ : String)
    (h : reviewKeywords.any
        (fun kw => strContains (strLower (subject ++ " " ++ from_)) kw) = true) :
    classify subject from_ = none := by
  unfold classify
  simp only [h, if_true]

theorem C7_review_overrides_platform_witness :
    reviewKeywords.any (fun kw =>
        strContains (strLower ("Playo booking review" ++ " " ++ "noreply@playo.co")) kw) = true ∧
    strContains (strLower ("Playo booking review" ++ " " ++ "noreply@playo.co")) "playo" = true ∧
    classify "Playo booking review" "noreply@playo.co" = none :=
  ⟨by decide, by decide, C7_review_overrides_platform "Playo booking review" "noreply@playo.co" (by decide)⟩

/-- C8 counterexample: a record whose location is the extractor's
unknown-location value `"Unknown Location"` is *not* broadcast — the
dispatcher's generic set is `{"", "Unknown", "General"}`, so the only
subscriber (registered for `"Andheri"`) receives nothing, refuting
"broadcast to every subscriber". -/
theorem C8_counterexample :
    pushTargets "Unknown Location" [⟨"Andheri", "device1"⟩] = [] ∧
    ([⟨"Andheri", "device1"⟩] : List Subscriber) ≠ [] := by decide

/-- C8 amended: a subscriber receives the payload iff it is registered
and either the record's location is one of the dispatcher's generic
values `""`, `"Unknown"`, `"General"` (broadcast) or it matches the
subscriber's registered location exactly; the extractor's
`"Unknown Location"` is matched by equality like any facility name. -/
theorem C8_amended (location : String) (subs : List Subscriber) (sub : Subscriber) :
    sub ∈ pushTargets location subs ↔
      sub ∈ subs ∧ (location = "" ∨ location = "Unknown" ∨ location = "General" ∨
        sub.location = location) := by
  unfold pushTargets
  rw [List.mem_filter]
  by_cases h1 : location = ""
  · simp [h1]
  · by_cases h2 : location = "Unknown"
    · simp [h2]
    · by_cases h3 : location = "General"
      · simp [h3]
      · simp [h1, h2, h3]

/-- C9: with either credential missing (or empty, which JS treats as
missing), the sync cycle returns the `not configured` failure without
attempting a mailbox connection, the persisted history is unchanged,
and the dashboard schedules no retry for a response it received. -/
theorem C9_config_error (emailUser emailPassword : Option String)
    (history alerts : List Booking) (retriesLeft : Nat)
    (h : emailUser.getD "" = "" ∨ emailPassword.getD "" = "") :
    syncCycle emailUser emailPassword history alerts =
      { success := false, message := "Email credentials not configured",
        connectionAttempted := false, store := history } ∧
    clientRetryScheduled true retriesLeft = false := by
  constructor
  · unfold syncCycle
    rcases h with h | h <;> simp [h]
  · simp [clientRetryScheduled]

theorem C9_config_error_witness :
    ((none : Option String).getD "" = "" ∨ (some "pw" : Option String).getD "" = "") ∧
    syncCycle none (some "pw") histW batchW =
      { success := false, message := "Email credentials not configured",
        connectionAttempted := false, store := histW } ∧
    clientRetryScheduled true 1 = false :=
  ⟨Or.inl rfl,
   (C9_config_error none (some "pw") histW batchW 1 (Or.inl rfl)).1,
   (C9_config_error none (some "pw") histW batchW 1 (Or.inl rfl)).2⟩

/-- C10: in production mode, whenever the cap-truncated incoming list
has the same length as the stored list and the same first-element id,
`saveBookings` skips the write and the stored value is unchanged —
whatever the rest of the incoming records contain. -/
theorem C10_quota_shield_skips_write (stored incoming : List Booking)
    (h1 : stored.length = (incoming.take 1000).length)
    (h2 : headIdOpt stored = headIdOpt (incoming.take 1000)) :
    saveBookingsProd stored incoming = stored := by
  show (if stored.length = (incoming.take 1000).length ∧
      headIdOpt stored = headIdOpt (incoming.take 1000) then stored
    else incoming.take 1000) = stored
  rw [if_pos ⟨h1, h2⟩]

/-- An incoming list agreeing with `histW` in length and head id but
with different content in its second record. -/
def incomingC10 : List Booking :=
  [{ id := "1", platform := "Playo", location := "Andheri", bookingSlot := "A",
     gameDate := "1 Feb, 2026", gameTime := "7:00 PM", sport := "Badminton",
     message := "m1", timestamp := 1 },
   { id := "2", platform := "Hudle", location := "Thane", bookingSlot := "CHANGED",
     gameDate := "5 Feb, 2026", gameTime := "6:00 PM", sport := "Squash",
     message := "m2c", timestamp := 9 }]

theorem C10_quota_shield_skips_write_witness :
    histW.length = (incomingC10.take 1000).length ∧
    headIdOpt histW = headIdOpt (incomingC10.take 1000) ∧
    incomingC10 ≠ histW ∧
    saveBookingsProd histW incomingC10 = histW :=
  ⟨by decide, by decide, by decide,
   C10_quota_shield_skips_write histW incomingC10 (by decide) (by decide)⟩

/-! ## SlotMerger order-independence -/

theorem perm_of_nodup_mem_iff (l₁ l₂ : List String)
    (h1 : l₁.Nodup) (h2 : l₂.Nodup) (hm : ∀ a, a ∈ l₁ ↔ a ∈ l₂) : l₁.Perm l₂ := by
  rw [List.perm_iff_count]
  intro a
  by_cases h : a ∈ l₁
  · rw [List.count_eq_one_of_mem h1 h, List.count_eq_one_of_mem h2 ((hm a).mp h)]
  · rw [List.count_eq_zero_of_not_mem h,
      List.count_eq_zero_of_not_mem (fun hc => h ((hm a).mpr hc))]

theorem dedupKeys_perm_of_perm (l₁ l₂ : List String) (h : l₁.Perm l₂) :
    (dedupKeys l₁).Perm (dedupKeys l₂) :=
  perm_of_nodup_mem_iff _ _ (nodup_dedupKeys _) (nodup_dedupKeys _)
    (fun a => by rw [mem_dedupKeys, mem_dedupKeys]; exact h.mem_iff)

/-- Two sorted lists of ranges that are permutations of each other and
whose start instants are injective on their elements are equal. -/
theorem sorted_eq_of_perm_of_injT (xs : List TRange) :
    ∀ ys, xs.Perm ys → xs.Sorted rangeLE → ys.Sorted rangeLE →
      (∀ a ∈ xs, ∀ b ∈ xs, a.startT = b.startT → a = b) → xs = ys := by
  induction xs with
  | nil =>
    intro ys h _ _ _
    exact h.nil_eq
  | cons x xs ih =>
    intro ys hperm hs1 hs2 hinj
    cases ys with
    | nil =>
      have := hperm.length_eq
      simp at this
    | cons y ys' =>
      have hxs1 := List.sorted_cons.mp hs1
      have hxs2 := List.sorted_cons.mp hs2
      have hxy : x = y := by
        have hxmem : x ∈ y :: ys' := hperm.mem_iff.mp (List.mem_cons_self x xs)
        have hymem : y ∈ x :: xs := hperm.symm.mem_iff.mp (List.mem_cons_self y ys')
        rcases List.mem_cons.mp hxmem with he | hx'
        · exact he
        · have hle1 : y.startT ≤ x.startT := hxs2.1 x hx'
          have hle2 : x.startT ≤ y.startT := by
            rcases List.mem_cons.mp hymem with he | hy'
            · rw [he]
            · exact hxs1.1 y hy'
          exact hinj x (List.mem_cons_self x xs) y hymem (Nat.le_antisymm hle2 hle1)
      subst hxy
      have htail := ih ys' hperm.cons_inv hxs1.2 hxs2.2
        (fun a ha b hb he =>
          hinj a (List.mem_cons_of_mem x ha) b (List.mem_cons_of_mem x hb) he)
      rw [htail]

/-- C5 counterexample: `"07:00 PM"` and `"7:00 PM - 8:00 PM"` are
textually distinct time matches with the same parsed start instant;
permuting them changes which rendered text survives the merge, so the
SlotMerger output is not permutation-invariant as claimed. -/
theorem C5_counterexample :
    (["07:00 PM", "7:00 PM - 8:00 PM"] : List String).Perm
      ["7:00 PM - 8:00 PM", "07:00 PM"] ∧
    slotMerge ["07:00 PM", "7:00 PM - 8:00 PM"] ≠
      slotMerge ["7:00 PM - 8:00 PM", "07:00 PM"] :=
  ⟨List.Perm.swap "7:00 PM - 8:00 PM" "07:00 PM" [], by decide⟩

/-- C5 amended: the SlotMerger output is identical for every
permutation of the input match list, provided distinct textual matches
parse to distinct start instants (which rules out aliased spellings of
the same instant such as `"07:00 PM"` vs `"7:00 PM"`). -/
theorem C5_amended (l₁ l₂ : List String) (hperm : l₁.Perm l₂)
    (hinj : ∀ s ∈ l₁, ∀ t ∈ l₁, (toRange s).startT = (toRange t).startT → s = t) :
    slotMerge l₁ = slotMerge l₂ := by
  unfold slotMerge
  suffices h : List.insertionSort rangeLE ((dedupKeys l₁).map toRange) =
      List.insertionSort rangeLE ((dedupKeys l₂).map toRange) by rw [h]
  apply sorted_eq_of_perm_of_injT
  · exact ((List.perm_insertionSort rangeLE _).trans
      ((dedupKeys_perm_of_perm l₁ l₂ hperm).map toRange)).trans
      (List.perm_insertionSort rangeLE _).symm
  · exact List.sorted_insertionSort rangeLE _
  · exact List.sorted_insertionSort rangeLE _
  · intro a ha b hb he
    rw [List.mem_insertionSort] at ha hb
    obtain ⟨s, hs, rfl⟩ := List.mem_map.mp ha
    obtain ⟨t, ht, rfl⟩ := List.mem_map.mp hb
    rw [hinj s ((mem_dedupKeys _ _).mp hs) t ((mem_dedupKeys _ _).mp ht) he]

theorem C5_amended_witness :
    (["8:00 PM - 9:00 PM", "9:00 PM - 10:00 PM"] : List String).Perm
      ["9:00 PM - 10:00 PM", "8:00 PM - 9:00 PM"] ∧
    slotMerge ["8:00 PM - 9:00 PM", "9:00 PM - 10:00 PM"] =
      slotMerge ["9:00 PM - 10:00 PM", "8:00 PM - 9:00 PM"] :=
  ⟨List.Perm.swap "9:00 PM - 10:00 PM" "8:00 PM - 9:00 PM" [],
   C5_amended ["8:00 PM - 9:00 PM", "9:00 PM - 10:00 PM"]
     ["9:00 PM - 10:00 PM", "8:00 PM - 9:00 PM"]
     (List.Perm.swap "9:00 PM - 10:00 PM" "8:00 PM - 9:00 PM" []) (by decide)⟩

/-- C6 counterexample: a candidate record built by the route from a
body with no sport mention and no recoverable date ends with
`sport = ""` (not the claimed `"General"` default) and `gameDate = ""`
(not the claimed `TBD` sentinel) — empty fields, which the claim says
never occur. -/
theorem C6_counterexample :
    (buildAlert "1" "Playo" "Unknown Location" "MISSING" "hello world" "hello world"
        "No Subject" 0).sport = "" ∧
    (buildAlert "1" "Playo" "Unknown Location" "MISSING" "hello world" "hello world"
        "No Subject" 0).sport ≠ "General" ∧
    (buildAlert "1" "Playo" "Unknown Location" "MISSING" "hello world" "hello world"
        "No Subject" 0).gameDate = "" ∧
    (buildAlert "1" "Playo" "Unknown Location" "MISSING" "hello world" "hello world"
        "No Subject" 0).gameDate ≠ "TBD" := by decide

/-- C6 amended: when no sport name occurs in the (lowercased)
subject+body text the candidate's `sport` is the empty string (the
`"General"` default exists only in the dashboard's rendering), and when
both date projections fail — the slot-text cascade and the body-wide
fallback pattern — the candidate's `gameDate` is the empty string, not
the `TBD` sentinel; these fields can therefore be empty. -/
theorem C6_amended (uid platform location bookingSlot normalizedText fullText subject : String)
    (ts : Nat)
    (h1 : sportsList.all (fun s => !(strContains fullText (strLower s))) = true)
    (h2 : extractDateOnly bookingSlot = "")
    (h3 : jsMatch fallbackDatePat normalizedText = none) :
    (buildAlert uid platform location bookingSlot normalizedText fullText subject ts).sport
        = "" ∧
    (buildAlert uid platform location bookingSlot normalizedText fullText subject ts).gameDate
        = "" := by
  have hsport : resolveSport fullText = "" := by
    unfold resolveSport
    have hnone : sportsList.find? (fun s => strContains fullText (strLower s)) = none := by
      rw [List.find?_eq_none]
      intro x hx
      have hx' := List.all_eq_true.mp h1 x hx
      simp only [Bool.not_eq_true'] at hx'
      simp [hx']
    rw [hnone]
  constructor
  · simp [buildAlert, hsport]
  · simp [buildAlert, h2, h3]

theorem C6_amended_witness :
    sportsList.all (fun s => !(strContains "hello world" (strLower s))) = true ∧
    extractDateOnly "MISSING" = "" ∧
    jsMatch fallbackDatePat "hello world" = none ∧
    (buildAlert "9" "Hudle" "Thane" "MISSING" "hello world" "hello world"
        "Subject" 3).sport = "" ∧
    (buildAlert "9" "Hudle" "Thane" "MISSING" "hello world" "hello world"
        "Subject" 3).gameDate = "" :=
  ⟨by decide, by decide, by decide,
   (C6_amended "9" "Hudle" "Thane" "MISSING" "hello world" "hello world" "Subject" 3
      (by decide) (by decide) (by decide)).1,
   (C6_amended "9" "Hudle" "Thane" "MISSING" "hello world" "hello world" "Subject" 3
      (by decide) (by decide) (by decide)).2⟩
